import Mathlib

/-!
Verification development for the SMOKED_MONEY habit-tracking chat assistant
(`src/main.py`).

The Python program is shallowly embedded:

* Python `float` values are modelled by `FVal`: an exact rational for finite
  values plus the special values `nan`, `inf`, `ninf`.  Finite arithmetic is
  exact (the spec promises no precision guarantees beyond standard
  floating point); comparisons and the propagation of the special values
  follow IEEE-754 / Python semantics (`nan` compares false with everything,
  `inf * 0 = nan`, ...), which is what the parsing guards in the source
  actually exercise.
* Python `date` / `datetime` values are modelled by `Date` / `DateTime`;
  `toOrdinal` is `date.toordinal()` (proleptic Gregorian ordinal), and
  timestamp comparison in the SQL `BETWEEN` filter is modelled by comparing
  microsecond counts (`tsVal`), which agrees with chronological order of the
  ISO strings the program stores.
* The SQLite store and the per-user pending flags in `context.user_data`
  are modelled by the record `BotState`; handlers are state transformers
  returning the new state together with a list of outbound `Effect`s.
  The persistence layer is modelled as storing exactly the values the
  program binds into its SQL statements.
* String parsing (`float(text)`, `int(text)`,
  `datetime.strptime(text, "%Y-%m-%d")`) is embedded over `List Char`,
  following CPython's grammar for those conversions (signs, underscores
  between digits, `inf`/`infinity`/`nan` case-insensitively, exact 4-digit
  year and 1-2 digit month/day for `%Y-%m-%d`).
-/

namespace SmokedMoney

/-! ## Python float model -/

/-- Model of a Python `float`: exact rationals for finite values, plus the
IEEE special values produced and compared by the source. -/
inductive FVal where
  | fin : ℚ → FVal
  | nan : FVal
  | inf : FVal
  | ninf : FVal
deriving DecidableEq, Repr

/-- Python `<=` on floats: any comparison involving `nan` is `False`. -/
def fle : FVal → FVal → Bool
  | .nan, _ => false
  | _, .nan => false
  | .ninf, _ => true
  | .fin _, .ninf => false
  | .inf, .ninf => false
  | .fin a, .fin b => a ≤ b
  | .fin _, .inf => true
  | .inf, .inf => true
  | .inf, .fin _ => false

/-- Python `<` on floats: any comparison involving `nan` is `False`. -/
def flt : FVal → FVal → Bool
  | .nan, _ => false
  | _, .nan => false
  | .ninf, .ninf => false
  | .ninf, _ => true
  | .fin _, .ninf => false
  | .inf, _ => false
  | .fin a, .fin b => a < b
  | .fin _, .inf => true

/-- Python float multiplication (exact on finite values). -/
def fmul : FVal → FVal → FVal
  | .nan, _ => .nan
  | _, .nan => .nan
  | .fin a, .fin b => .fin (a * b)
  | .inf, .fin b => if 0 < b then .inf else if b < 0 then .ninf else .nan
  | .fin a, .inf => if 0 < a then .inf else if a < 0 then .ninf else .nan
  | .ninf, .fin b => if 0 < b then .ninf else if b < 0 then .inf else .nan
  | .fin a, .ninf => if 0 < a then .ninf else if a < 0 then .inf else .nan
  | .inf, .inf => .inf
  | .inf, .ninf => .ninf
  | .ninf, .inf => .ninf
  | .ninf, .ninf => .inf

/-- Python float addition (exact on finite values). -/
def fadd : FVal → FVal → FVal
  | .nan, _ => .nan
  | _, .nan => .nan
  | .fin a, .fin b => .fin (a + b)
  | .inf, .ninf => .nan
  | .ninf, .inf => .nan
  | .inf, _ => .inf
  | _, .inf => .inf
  | .ninf, _ => .ninf
  | _, .ninf => .ninf

/-! ## Calendar model (Python `datetime.date`) -/

/-- A calendar date, as Python's `datetime.date` triple. -/
structure Date where
  year : ℕ
  month : ℕ
  day : ℕ
deriving DecidableEq, Repr

/-- Gregorian leap-year rule, as `calendar.isleap`. -/
def isLeap (y : ℕ) : Bool := (y % 4 == 0 && y % 100 != 0) || y % 400 == 0

/-- Length of a month. -/
def daysInMonth (y m : ℕ) : ℕ :=
  if m = 2 then (if isLeap y then 29 else 28)
  else if m = 4 ∨ m = 6 ∨ m = 9 ∨ m = 11 then 30
  else 31

/-- Cumulative days before a month in a non-leap year. -/
def monthBase : ℕ → ℕ
  | 1 => 0
  | 2 => 31
  | 3 => 59
  | 4 => 90
  | 5 => 120
  | 6 => 151
  | 7 => 181
  | 8 => 212
  | 9 => 243
  | 10 => 273
  | 11 => 304
  | 12 => 334
  | _ => 0

/-- Cumulative days before a month, accounting for leap years. -/
def daysBeforeMonth (y m : ℕ) : ℕ :=
  monthBase m + (if 3 ≤ m ∧ isLeap y then 1 else 0)

/-- Number of leap years in `1..n`. -/
def leapsBefore (n : ℕ) : ℕ := n / 4 - n / 100 + n / 400

/-- Python `date.toordinal()`: day number in the proleptic Gregorian
calendar, with 0001-01-01 mapped to 1. -/
def toOrdinal (d : Date) : ℕ :=
  365 * (d.year - 1) + leapsBefore (d.year - 1) + daysBeforeMonth d.year d.month + d.day

/-- A date Python's `datetime.date` constructor accepts (year ≥ 1; month and
day in calendar range).  Python also caps the year at 9999; no claim depends
on the upper bound, so it is left out. -/
def ValidDate (d : Date) : Prop :=
  1 ≤ d.year ∧ 1 ≤ d.month ∧ d.month ≤ 12 ∧ 1 ≤ d.day ∧ d.day ≤ daysInMonth d.year d.month

instance (d : Date) : Decidable (ValidDate d) := by
  unfold ValidDate; infer_instance

/-- The calendar successor of a date. -/
def nextDay (d : Date) : Date :=
  if d.day < daysInMonth d.year d.month then ⟨d.year, d.month, d.day + 1⟩
  else if d.month < 12 then ⟨d.year, d.month + 1, 1⟩
  else ⟨d.year + 1, 1, 1⟩

/-- `(date(y, 12, 31) - today).days` for `today` in year `y`: the number of
calendar days after `today`, up to and including December 31. -/
def remainingDaysInYear (d : Date) : ℕ :=
  toOrdinal ⟨d.year, 12, 31⟩ - toOrdinal d

/-- Python `date` strict comparison (lexicographic on year, month, day). -/
def dateLt (a b : Date) : Bool :=
  a.year < b.year ∨ (a.year = b.year ∧
    (a.month < b.month ∨ (a.month = b.month ∧ a.day < b.day)))

/-- Python `date` comparison `a <= b`. -/
def dateLe (a b : Date) : Bool :=
  dateLt a b || a == b

/-! ## String normalisation and CPython-style parsing

The handlers receive free text already passed through Python's
`.strip()` / `.lower()`; both are modelled over `List Char` (ASCII
whitespace and ASCII case folding, which covers the grammar of every
value the parsers below accept). -/

/-- ASCII whitespace stripped by Python's `str.strip()`. -/
def isSpaceChar (c : Char) : Bool :=
  c = ' ' ∨ c = '\t' ∨ c = '\n' ∨ c = '\r' ∨ c = '\x0b' ∨ c = '\x0c'

/-- Python `str.strip()`. -/
def stripChars (cs : List Char) : List Char :=
  ((cs.dropWhile isSpaceChar).reverse.dropWhile isSpaceChar).reverse

/-- Python `str.lower()`. -/
def lowerChars (cs : List Char) : List Char := cs.map Char.toLower

/-- `text.strip().lower()`, the normalisation in `handle_text_message`
and `ask_start_date`. -/
def normText (s : String) : List Char := lowerChars (stripChars s.data)

def digitVal (c : Char) : ℕ := c.toNat - '0'.toNat

/-- Consume a maximal CPython digit run `digit (('_')? digit)*`
(underscores only between digits), accumulating value and digit count. -/
def takeDigitsAux (acc cnt : ℕ) : List Char → ℕ × ℕ × List Char
  | [] => (acc, cnt, [])
  | c :: cs =>
    if c.isDigit then takeDigitsAux (10 * acc + digitVal c) (cnt + 1) cs
    else if c = '_' then
      match cs with
      | c2 :: cs2 =>
        if c2.isDigit then takeDigitsAux (10 * acc + digitVal c2) (cnt + 1) cs2
        else (acc, cnt, c :: cs)
      | [] => (acc, cnt, [c])
    else (acc, cnt, c :: cs)

/-- Parse a nonempty CPython digit run; `none` if the first char is not a
digit.  Returns value, digit count and the unconsumed remainder. -/
def parseUDigits (cs : List Char) : Option (ℕ × ℕ × List Char) :=
  match cs with
  | c :: rest => if c.isDigit then some (takeDigitsAux (digitVal c) 1 rest) else none
  | [] => none

/-- Consume an optional leading sign; `true` means negative. -/
def parseSign : List Char → Bool × List Char
  | '+' :: cs => (false, cs)
  | '-' :: cs => (true, cs)
  | cs => (false, cs)

/-- CPython `int(text)` on already-stripped text: optional sign, then a
digit run with optional single underscores between digits. -/
def pyParseInt (cs : List Char) : Option ℤ :=
  let (neg, body) := parseSign cs
  match parseUDigits body with
  | some (v, _, []) => some (if neg then -(v : ℤ) else (v : ℤ))
  | _ => none

/-- CPython `float(text)` on already-stripped text: optional sign, then
`inf`/`infinity`/`nan` case-insensitively, or a decimal literal
`digits [. digits] [ (e|E) [sign] digits ]` with at least one mantissa
digit.  Finite results are exact rationals. -/
def pyParseFloat (cs : List Char) : Option FVal :=
  let sb := parseSign cs
  let neg := sb.1
  let body := sb.2
  let ls := lowerChars body
  if ls = [ 'i', 'n', 'f' ] ∨ ls = [ 'i', 'n', 'f', 'i', 'n', 'i', 't', 'y' ] then
    some (if neg then .ninf else .inf)
  else if ls = [ 'n', 'a', 'n' ] then some .nan
  else
    let ip :=
      match parseUDigits body with
      | some (v, c, r) => (v, c, r)
      | none => (0, 0, body)
    let fp :=
      match ip.2.2 with
      | '.' :: rest =>
        match parseUDigits rest with
        | some (v, c, r) => (v, c, r)
        | none => (0, 0, rest)
      | _ => (0, 0, ip.2.2)
    if ip.2.1 + fp.2.1 = 0 then none
    else
      let mag : ℚ := (ip.1 : ℚ) + (fp.1 : ℚ) / (10 : ℚ) ^ fp.2.1
      match fp.2.2 with
      | [] => some (.fin (if neg then -mag else mag))
      | e :: rest =>
        if e = 'e' ∨ e = 'E' then
          let eb := parseSign rest
          match parseUDigits eb.2 with
          | some (ev, _, []) =>
            let scaled : ℚ := if eb.1 then mag / (10 : ℚ) ^ ev else mag * (10 : ℚ) ^ ev
            some (.fin (if neg then -scaled else scaled))
          | _ => none
        else none

/-- Python's `datetime.date` constructor: validates the calendar range and
rejects year 0 (Lean model of the `ValueError` on out-of-range fields). -/
def mkValidDate (y m d : ℕ) : Option Date :=
  if ValidDate ⟨y, m, d⟩ then some ⟨y, m, d⟩ else none

def allDigits (cs : List Char) : Bool := cs.all Char.isDigit

def natOfDigits (cs : List Char) : ℕ := cs.foldl (fun a c => 10 * a + digitVal c) 0

/-- `str.split`-style split on `'-'`. -/
def splitDash : List Char → List (List Char)
  | [] => [[]]
  | c :: rest =>
    if c = '-' then [] :: splitDash rest
    else
      match splitDash rest with
      | t :: ts => (c :: t) :: ts
      | [] => [[c]]

/-- CPython `datetime.strptime(text, "%Y-%m-%d").date()`: exactly four
digits for `%Y`, one or two digits in range for `%m` and `%d` (CPython's
regexes `1[0-2]|0[1-9]|[1-9]` and `3[01]|[12]\d|0[1-9]|[1-9]`), nothing
left over, then `date()` validation. -/
def pyParseDate (cs : List Char) : Option Date :=
  match splitDash cs with
  | [ys, ms, ds] =>
    if allDigits ys ∧ allDigits ms ∧ allDigits ds ∧ ys.length = 4 ∧
        1 ≤ ms.length ∧ ms.length ≤ 2 ∧ 1 ≤ ds.length ∧ ds.length ≤ 2 ∧
        1 ≤ natOfDigits ms ∧ natOfDigits ms ≤ 12 ∧
        1 ≤ natOfDigits ds ∧ natOfDigits ds ≤ 31 then
      mkValidDate (natOfDigits ys) (natOfDigits ms) (natOfDigits ds)
    else none
  | _ => none

/-- Decimal digits of a natural number (fuel-based, kernel-friendly). -/
def natToDigitsAux : ℕ → ℕ → List Char → List Char
  | 0, _, acc => acc
  | fuel + 1, n, acc =>
    if n < 10 then Char.ofNat (48 + n) :: acc
    else natToDigitsAux fuel (n / 10) (Char.ofNat (48 + n % 10) :: acc)

def natToDigits (n : ℕ) : List Char := natToDigitsAux (n + 1) n []

def padLeft (w : ℕ) (cs : List Char) : List Char :=
  List.replicate (w - cs.length) '0' ++ cs

/-- Python `date.isoformat()`: zero-padded `YYYY-MM-DD`. -/
def isoOfDate (d : Date) : List Char :=
  padLeft 4 (natToDigits d.year) ++ '-' :: padLeft 2 (natToDigits d.month) ++
    '-' :: padLeft 2 (natToDigits d.day)

/-! ## Timestamps and the aggregation engine -/

/-- A Python `datetime`: calendar date plus microseconds since local
midnight (`tod < 86400000000` for values `datetime.now()` produces). -/
structure DateTime where
  date : Date
  tod : ℕ
deriving DecidableEq, Repr

def usPerDay : ℕ := 86400000000

/-- Microsecond timeline position of a `datetime`.  Chronological order of
`tsVal` agrees with lexicographic order of the ISO strings the program
stores and compares with SQL `BETWEEN`. -/
def tsVal (t : DateTime) : ℤ := (toOrdinal t.date : ℤ) * usPerDay + t.tod

/-- `now.replace(hour=0, minute=0, second=0, microsecond=0)`. -/
def dailyStartTs (now : DateTime) : ℤ := (toOrdinal now.date : ℤ) * usPerDay

/-- `now - timedelta(days=7)`. -/
def weeklyStartTs (now : DateTime) : ℤ := tsVal now - 7 * usPerDay

/-- `now.replace(day=1, hour=0, ...)`. -/
def monthlyStartTs (now : DateTime) : ℤ :=
  (toOrdinal ⟨now.date.year, now.date.month, 1⟩ : ℤ) * usPerDay

/-- `now.replace(month=1, day=1, hour=0, ...)`. -/
def yearlyStartTs (now : DateTime) : ℤ :=
  (toOrdinal ⟨now.date.year, 1, 1⟩ : ℤ) * usPerDay

/-- A row of the `usage` table. -/
structure UsageEvent where
  user_id : ℤ
  timestamp : DateTime
  quantity : ℤ
  cost : FVal
deriving DecidableEq, Repr

/-- The SQL row filter `user_id = ? AND timestamp BETWEEN ? AND ?`
(`BETWEEN` is inclusive at both ends). -/
def inWindow (uid : ℤ) (a b : ℤ) (ev : UsageEvent) : Bool :=
  decide (ev.user_id = uid) && decide (a ≤ tsVal ev.timestamp) &&
    decide (tsVal ev.timestamp ≤ b)

/-- `_aggregate_usage`: the SQL
`SELECT IFNULL(SUM(quantity), 0), IFNULL(SUM(cost), 0) ... WHERE ...`,
modelled as a row-by-row scan accumulating both sums. -/
def aggregate_usage (usage : List UsageEvent) (uid a b : ℤ) : ℤ × FVal :=
  usage.foldl
    (fun acc ev =>
      if inWindow uid a b ev then (acc.1 + ev.quantity, fadd acc.2 ev.cost) else acc)
    (0, .fin 0)

structure Aggregates where
  daily : ℤ × FVal
  weekly : ℤ × FVal
  monthly : ℤ × FVal
  yearly : ℤ × FVal
deriving DecidableEq, Repr

/-- `get_aggregates`: the four windows anchored at `now`. -/
def get_aggregates (usage : List UsageEvent) (uid : ℤ) (now : DateTime) : Aggregates :=
  { daily := aggregate_usage usage uid (dailyStartTs now) (tsVal now)
    weekly := aggregate_usage usage uid (weeklyStartTs now) (tsVal now)
    monthly := aggregate_usage usage uid (monthlyStartTs now) (tsVal now)
    yearly := aggregate_usage usage uid (yearlyStartTs now) (tsVal now) }

/-- Float sum of a list (specification-side, structural). -/
def sumF : List FVal → FVal
  | [] => .fin 0
  | c :: l => fadd c (sumF l)

/-! ## Forecast and theoretical spend -/

/-- `calculate_forecast(daily_cost)`: `0.0` when `daily_cost <= 0`, else
`daily_cost * (date(y, 12, 31) - today).days`. -/
def calculate_forecast (daily_cost : FVal) (today : Date) : FVal :=
  if fle daily_cost (.fin 0) then .fin 0
  else fmul daily_cost (.fin (remainingDaysInYear today))

/-- `theoretical_spent_since_start(user_id, start_date_str)`; `now` stands
for both `datetime.now()` (aggregates) and `date.today()`. -/
def theoretical_spent_since_start (usage : List UsageEvent) (uid : ℤ) (now : DateTime)
    (start_date_str : Option (List Char)) : FVal :=
  match start_date_str with
  | none => .fin 0
  | some str =>
    if str = [] then .fin 0
    else
      match pyParseDate str with
      | none => .fin 0
      | some start_dt =>
        let daily_cost := (get_aggregates usage uid now).daily.2
        if dateLt now.date start_dt then .fin 0
        else fmul daily_cost (.fin (((toOrdinal now.date : ℤ) - (toOrdinal start_dt : ℤ)) + 1))

/-! ## Persistent state and handlers

`BotState` collects the two SQLite tables and the two pending-input flags
kept per user in `context.user_data` (keys `awaiting_new_price_{uid}` and
`awaiting_smoked_more_{uid}`).  Handlers return the successor state plus a
list of outbound `Effect`s; callback acknowledgements (`query.answer()`)
are transport-level and not modelled.  Message sending/editing is
nondeterministic at the transport, so `update_dashboard` takes an
`editOk` oracle (does `edit_message_text` succeed?) and the id `newMsgId`
the transport would assign to a freshly sent message. -/

/-- A row of the `users` table. -/
structure Profile where
  unit_price : FVal
  stock : ℤ
  dashboard_message_id : Option ℤ
  start_smoking_date : Option (List Char)
deriving DecidableEq, Repr

structure BotState where
  users : ℤ → Option Profile
  usage : List UsageEvent
  awaitingNewPrice : ℤ → Bool
  awaitingSmokedMore : ℤ → Bool

inductive Effect where
  | sentText
  | sentDashboard
  | editedDashboard
deriving DecidableEq, Repr

/-- Conversation-state constants of the onboarding flow. -/
def ASKING_UNIT_PRICE : ℤ := 1

def ASKING_START_DATE : ℤ := 2

/-- `ConversationHandler.END`. -/
def CONV_END : ℤ := -1

/-- `get_user`. -/
def get_user (s : BotState) (uid : ℤ) : Option Profile := s.users uid

/-- `create_user`: insert with stock 0, no dashboard message, no start date. -/
def create_user (s : BotState) (uid : ℤ) (unit_price : FVal) : BotState :=
  { s with users := fun u => if u = uid then some ⟨unit_price, 0, none, none⟩ else s.users u }

/-- `UPDATE users SET <field> = ? WHERE user_id = ?`: rewrite the user's
row through `f` (no-op on an absent row, as in SQL). -/
def mapProfileAt (s : BotState) (uid : ℤ) (f : Profile → Profile) : BotState :=
  { s with users := fun u => if u = uid then (s.users uid).map f else s.users u }

/-- `update_dashboard_message_id`. -/
def update_dashboard_message_id (s : BotState) (uid : ℤ) (message_id : ℤ) : BotState :=
  mapProfileAt s uid (fun p => { p with dashboard_message_id := some message_id })

/-- `update_user_price`. -/
def update_user_price (s : BotState) (uid : ℤ) (new_price : FVal) : BotState :=
  mapProfileAt s uid (fun p => { p with unit_price := new_price })

/-- `update_user_stock`. -/
def update_user_stock (s : BotState) (uid : ℤ) (new_stock : ℤ) : BotState :=
  mapProfileAt s uid (fun p => { p with stock := new_stock })

/-- `update_user_start_date`. -/
def update_user_start_date (s : BotState) (uid : ℤ) (start_date_str : List Char) : BotState :=
  mapProfileAt s uid (fun p => { p with start_smoking_date := some start_date_str })

/-- `log_smoke_event`: append one `usage` row timestamped now. -/
def log_smoke_event (s : BotState) (uid : ℤ) (now : DateTime) (quantity : ℤ) (cost : FVal) :
    BotState :=
  { s with usage := s.usage ++ [⟨uid, now, quantity, cost⟩] }

def setPriceFlag (s : BotState) (uid : ℤ) (b : Bool) : BotState :=
  { s with awaitingNewPrice := fun u => if u = uid then b else s.awaitingNewPrice u }

def setMoreFlag (s : BotState) (uid : ℤ) (b : Bool) : BotState :=
  { s with awaitingSmokedMore := fun u => if u = uid then b else s.awaitingSmokedMore u }

/-- `update_dashboard`: send a new dashboard message (recording its id) if
asked to or if no id is stored; otherwise try to edit in place, falling
back to a fresh send whose id is recorded.  Reading the aggregates and
rendering the text are pure; the only write is the stored message id. -/
def update_dashboard (s : BotState) (uid : ℤ) (is_new_message : Bool) (editOk : Bool)
    (newMsgId : ℤ) : BotState × List Effect :=
  match s.users uid with
  | none => (s, [])
  | some p =>
    if is_new_message = true ∨ p.dashboard_message_id = none then
      (update_dashboard_message_id s uid newMsgId, [.sentDashboard])
    else if editOk = true then (s, [.editedDashboard])
    else (update_dashboard_message_id s uid newMsgId, [.sentDashboard])

/-- `menu_callback`: dispatch one inline-button press. -/
def menu_callback (s : BotState) (uid : ℤ) (choice : List Char) (now : DateTime)
    (editOk : Bool) (newMsgId : ℤ) : BotState × List Effect :=
  match get_user s uid with
  | none => (s, [])
  | some p =>
    if choice = "ADD_PACK".data then
      update_dashboard (update_user_stock s uid (p.stock + 20)) uid false editOk newMsgId
    else if choice = "ADD_CIG".data then
      update_dashboard (update_user_stock s uid (p.stock + 1)) uid false editOk newMsgId
    else if choice = "SMOKE_ONE".data then
      let s1 :=
        if 0 < p.stock then
          log_smoke_event (update_user_stock s uid (p.stock - 1)) uid now 1 p.unit_price
        else s
      update_dashboard s1 uid false editOk newMsgId
    else if choice = "SMOKE_MORE".data then
      (setMoreFlag s uid true, [])
    else if choice = "CHANGE_PRICE".data then
      (setPriceFlag s uid true, [])
    else
      update_dashboard s uid false editOk newMsgId

/-- `handle_text_message`: free-text follow-ups for the two pending flags;
with no flag set, the message is ignored. -/
def handle_text_message (s : BotState) (uid : ℤ) (rawText : String) (now : DateTime)
    (editOk : Bool) (newMsgId : ℤ) : BotState × List Effect :=
  let text := normText rawText
  if s.awaitingNewPrice uid = true then
    let s1 :=
      match pyParseFloat text with
      | some new_price => if flt (.fin 0) new_price then update_user_price s uid new_price else s
      | none => s
    update_dashboard (setPriceFlag s1 uid false) uid false editOk newMsgId
  else if s.awaitingSmokedMore uid = true then
    match get_user s uid with
    | none => (s, [])
    | some p =>
      let s1 :=
        match pyParseInt text with
        | some qty =>
          if 0 < qty ∧ qty ≤ p.stock then
            log_smoke_event (update_user_stock s uid (p.stock - qty)) uid now qty
              (fmul p.unit_price (.fin qty))
          else s
        | none => s
      update_dashboard (setMoreFlag s1 uid false) uid false editOk newMsgId
  else (s, [])

/-- `ask_unit_price` (conversation state `ASKING_UNIT_PRICE`): parse a
positive float, create the user, move to the start-date question;
otherwise re-prompt.  Returns (state, next conversation state, effects). -/
def ask_unit_price (s : BotState) (uid : ℤ) (rawText : String) :
    BotState × ℤ × List Effect :=
  let text := stripChars rawText.data
  match pyParseFloat text with
  | some price =>
    if fle price (.fin 0) then (s, ASKING_UNIT_PRICE, [.sentText])
    else (create_user s uid price, ASKING_START_DATE, [.sentText])
  | none => (s, ASKING_UNIT_PRICE, [.sentText])

/-- `ask_start_date` (conversation state `ASKING_START_DATE`): `"skip"`
finishes without a date, a parseable date is stored as ISO text, anything
else re-prompts. -/
def ask_start_date (s : BotState) (uid : ℤ) (rawText : String) (editOk : Bool)
    (newMsgId : ℤ) : BotState × ℤ × List Effect :=
  let text := normText rawText
  if text = "skip".data then
    let r := update_dashboard s uid true editOk newMsgId
    (r.1, CONV_END, r.2)
  else
    match pyParseDate text with
    | some dt =>
      let s1 := update_user_start_date s uid (isoOfDate dt)
      let r := update_dashboard s1 uid true editOk newMsgId
      (r.1, CONV_END, r.2)
    | none => (s, ASKING_START_DATE, [.sentText])

/-- `/cancel`: clear both pending flags, nothing else. -/
def cancel (s : BotState) (uid : ℤ) : BotState × ℤ :=
  (setPriceFlag (setMoreFlag s uid false) uid false, CONV_END)


/-! ## Invariants, projections and sample states -/

/-- The durable per-user content a consumption attempt may not corrupt:
unit price, stock and start date (the dashboard message id legitimately
changes when a dashboard is re-sent). -/
def coreOf (p : Profile) : FVal × ℤ × Option (List Char) :=
  (p.unit_price, p.stock, p.start_smoking_date)

/-- Every stored profile has non-negative stock. -/
def StockNonneg (s : BotState) : Prop :=
  ∀ u p, s.users u = some p → 0 ≤ p.stock

/-- Every stored start date is the ISO form of a valid calendar date. -/
def StartDatesValid (s : BotState) : Prop :=
  ∀ u p str, s.users u = some p → p.start_smoking_date = some str →
    ∃ d, ValidDate d ∧ str = isoOfDate d

/-- State with no users at all (fresh database). -/
def emptyState : BotState :=
  { users := fun _ => none
    usage := []
    awaitingNewPrice := fun _ => false
    awaitingSmokedMore := fun _ => false }

/-- State with a single onboarded user 7 (price 1.0, stock 0). -/
def sampleState : BotState :=
  { users := fun u => if u = 7 then some ⟨.fin 1, 0, none, none⟩ else none
    usage := []
    awaitingNewPrice := fun _ => false
    awaitingSmokedMore := fun _ => false }

/-- Like `sampleState` but user 7 holds stock 5 and must answer a
pending "smoked more" question. -/
def sampleMoreState : BotState :=
  { users := fun u => if u = 7 then some ⟨.fin 1, 5, some 3, none⟩ else none
    usage := []
    awaitingNewPrice := fun _ => false
    awaitingSmokedMore := fun u => u = 7 }

/-- A sample instant: 2026-10-12, 12:00:00 local. -/
def sampleNow : DateTime := ⟨⟨2026, 10, 12⟩, 43200000000⟩

/-! ## Theorems -/

theorem fmul_comm (a b : FVal) : fmul a b = fmul b a := by
  cases a <;> cases b <;> simp [fmul, mul_comm]

theorem fadd_comm (a b : FVal) : fadd a b = fadd b a := by
  cases a <;> cases b <;> simp [fadd, add_comm]

theorem fadd_assoc (a b c : FVal) : fadd (fadd a b) c = fadd a (fadd b c) := by
  cases a <;> cases b <;> cases c <;> simp [fadd, add_assoc]

theorem zero_fadd (a : FVal) : fadd (.fin 0) a = a := by
  cases a <;> simp [fadd]

theorem fadd_zero (a : FVal) : fadd a (.fin 0) = a := by
  cases a <;> simp [fadd]

theorem fmul_one_right (a : FVal) : fmul a (.fin 1) = a := by
  cases a <;> simp [fmul]

/-! ### Calendar arithmetic lemmas

`remainingDaysInYear` (an ordinal difference, exactly as Python's
`timedelta.days` computes it) really is the count of calendar days from the
given day (exclusive) through December 31 (inclusive): iterating the
calendar successor that many times lands exactly on December 31. -/

theorem leapsBefore_succ (n : ℕ) :
    leapsBefore (n + 1) = leapsBefore n + (if isLeap (n + 1) then 1 else 0) := by
  have h4 := Nat.succ_div n 4
  have h100 := Nat.succ_div n 100
  have h400 := Nat.succ_div n 400
  have hd1 : (100 : ℕ) ∣ (n + 1) → (4 : ℕ) ∣ (n + 1) := fun h => dvd_trans (by norm_num) h
  have hd2 : (400 : ℕ) ∣ (n + 1) → (100 : ℕ) ∣ (n + 1) := fun h => dvd_trans (by norm_num) h
  have hle : n / 100 ≤ n / 4 := Nat.div_le_div_left (by norm_num) (by norm_num)
  have hle2 : n / 400 ≤ n / 100 := Nat.div_le_div_left (by norm_num) (by norm_num)
  by_cases c4 : (4:ℕ) ∣ (n+1) <;> by_cases c100 : (100:ℕ) ∣ (n+1) <;>
      by_cases c400 : (400:ℕ) ∣ (n+1)
  · have b4 : ((n+1) % 4 == 0) = true := by
      simp [Nat.dvd_iff_mod_eq_zero.mp c4]
    have b400 : ((n+1) % 400 == 0) = true := by
      simp [Nat.dvd_iff_mod_eq_zero.mp c400]
    simp only [leapsBefore, h4, h100, h400, if_pos c4, if_pos c100, if_pos c400,
      isLeap, b4, b400, Bool.true_and, Bool.or_true, if_pos]
    omega
  · have b4 : ((n+1) % 4 == 0) = true := by
      simp [Nat.dvd_iff_mod_eq_zero.mp c4]
    have b100 : ((n+1) % 100 != 0) = false := by
      simp [Nat.dvd_iff_mod_eq_zero.mp c100]
    have b400 : ((n+1) % 400 == 0) = false := by
      simp only [beq_eq_false_iff_ne, ne_eq]
      exact fun h => c400 (Nat.dvd_iff_mod_eq_zero.mpr h)
    simp only [leapsBefore, h4, h100, h400, if_pos c4, if_pos c100, if_neg c400,
      isLeap, b4, b100, b400, Bool.and_false, Bool.false_or, Bool.true_and, if_neg,
      Bool.false_eq_true, not_false_iff]
    omega
  · exact absurd (hd2 c400) c100
  · have b4 : ((n+1) % 4 == 0) = true := by
      simp [Nat.dvd_iff_mod_eq_zero.mp c4]
    have b100 : ((n+1) % 100 != 0) = true := by
      simp only [bne_iff_ne, ne_eq]
      exact fun h => c100 (Nat.dvd_iff_mod_eq_zero.mpr h)
    have b400 : ((n+1) % 400 == 0) = false := by
      simp only [beq_eq_false_iff_ne, ne_eq]
      exact fun h => c400 (Nat.dvd_iff_mod_eq_zero.mpr h)
    simp only [leapsBefore, h4, h100, h400, if_pos c4, if_neg c100, if_neg c400,
      isLeap, b4, b100, b400, Bool.and_true, Bool.true_and, Bool.or_false, if_pos]
    omega
  · exact absurd (hd1 c100) c4
  · exact absurd (hd1 c100) c4
  · exact absurd (hd2 c400) c100
  · have b4 : ((n+1) % 4 == 0) = false := by
      simp only [beq_eq_false_iff_ne, ne_eq]
      exact fun h => c4 (Nat.dvd_iff_mod_eq_zero.mpr h)
    have b400 : ((n+1) % 400 == 0) = false := by
      simp only [beq_eq_false_iff_ne, ne_eq]
      exact fun h => c400 (Nat.dvd_iff_mod_eq_zero.mpr h)
    simp only [leapsBefore, h4, h100, h400, if_neg c4, if_neg c100, if_neg c400,
      isLeap, b4, b400, Bool.false_and, Bool.false_or, if_neg,
      Bool.false_eq_true, not_false_iff]
    omega


theorem daysInMonth_pos (y m : ℕ) : 1 ≤ daysInMonth y m := by
  unfold daysInMonth
  split_ifs <;> norm_num

theorem daysInMonth_dec (y : ℕ) : daysInMonth y 12 = 31 := by
  norm_num [daysInMonth]

theorem daysBeforeMonth_dec (y : ℕ) :
    daysBeforeMonth y 12 = 334 + (if isLeap y = true then 1 else 0) := by
  by_cases hl : isLeap y = true <;> simp [daysBeforeMonth, monthBase, hl]

theorem daysBeforeMonth_jan (y : ℕ) : daysBeforeMonth y 1 = 0 := by
  simp [daysBeforeMonth, monthBase]

theorem daysBeforeMonth_succ (y m : ℕ) (h1 : 1 ≤ m) (h2 : m ≤ 11) :
    daysBeforeMonth y (m + 1) = daysBeforeMonth y m + daysInMonth y m := by
  interval_cases m <;> by_cases hl : isLeap y = true <;>
    simp [daysBeforeMonth, daysInMonth, monthBase, hl]

theorem toOrdinal_nextDay (d : Date) (h : ValidDate d) :
    toOrdinal (nextDay d) = toOrdinal d + 1 ∧ ValidDate (nextDay d) := by
  obtain ⟨y, m, day⟩ := d
  obtain ⟨hy, hm1, hm12, hday1, hday2⟩ := h
  simp only at hy hm1 hm12 hday1 hday2
  unfold nextDay
  simp only
  split_ifs with hlt hmon
  · refine ⟨?_, ?_⟩
    · dsimp only [toOrdinal]
      omega
    · exact ⟨hy, hm1, hm12, Nat.succ_le_succ (Nat.zero_le day), hlt⟩
  · have hde : day = daysInMonth y m := by omega
    refine ⟨?_, ?_⟩
    · have hb := daysBeforeMonth_succ y m hm1 (by omega)
      dsimp only [toOrdinal]
      rw [hb]
      omega
    · exact ⟨hy, Nat.succ_le_succ (Nat.zero_le m), hmon, le_refl 1, daysInMonth_pos y (m + 1)⟩
  · have hm : m = 12 := by omega
    subst hm
    have h31 := daysInMonth_dec y
    have hde : day = 31 := by omega
    subst hde
    refine ⟨?_, ?_⟩
    · dsimp only [toOrdinal]
      rw [Nat.add_sub_cancel, daysBeforeMonth_jan, daysBeforeMonth_dec]
      have hsucc := leapsBefore_succ (y - 1)
      rw [show y - 1 + 1 = y from by omega] at hsucc
      rw [hsucc]
      by_cases hl : isLeap y = true <;> simp [hl] <;> omega
    · exact ⟨Nat.succ_le_succ (Nat.zero_le y), le_refl 1, show 1 ≤ 12 from by norm_num, le_refl 1, daysInMonth_pos (y + 1) 1⟩

theorem toOrdinal_lt_end (d : Date) (h : ValidDate d)
    (hne : ¬(d.month = 12 ∧ d.day = 31)) :
    toOrdinal d < toOrdinal ⟨d.year, 12, 31⟩ := by
  obtain ⟨y, m, day⟩ := d
  obtain ⟨hy, hm1, hm12, hday1, hday2⟩ := h
  simp only at hy hm1 hm12 hday1 hday2 hne
  dsimp only [toOrdinal]
  rw [daysBeforeMonth_dec]
  rcases Nat.lt_or_ge m 12 with hm' | hm'
  · have hbound : daysBeforeMonth y m + day ≤ 334 + (if isLeap y = true then 1 else 0) := by
      by_cases hl : isLeap y = true <;> interval_cases m <;>
        norm_num [daysBeforeMonth, monthBase, daysInMonth, hl] at hday2 ⊢ <;> omega
    omega
  · have hm12' : m = 12 := by omega
    have hd31 : day ≠ 31 := fun h2 => hne ⟨hm12', h2⟩
    subst hm12'
    have h31 := daysInMonth_dec y
    rw [daysBeforeMonth_dec]
    omega

theorem toOrdinal_le_end (d : Date) (h : ValidDate d) :
    toOrdinal d ≤ toOrdinal ⟨d.year, 12, 31⟩ := by
  by_cases hne : d.month = 12 ∧ d.day = 31
  · obtain ⟨y, m, day⟩ := d
    simp only at hne
    simp [hne.1, hne.2]
  · exact le_of_lt (toOrdinal_lt_end d h hne)

theorem nextDay_year (d : Date) (h : ValidDate d)
    (hne : ¬(d.month = 12 ∧ d.day = 31)) :
    (nextDay d).year = d.year := by
  obtain ⟨y, m, day⟩ := d
  obtain ⟨hy, hm1, hm12, hday1, hday2⟩ := h
  simp only at hy hm1 hm12 hday1 hday2 hne
  unfold nextDay
  simp only
  split_ifs with h1 h2
  · rfl
  · rfl
  · exfalso
    have hm : m = 12 := by omega
    subst hm
    have h31 := daysInMonth_dec y
    exact hne ⟨rfl, by omega⟩

/-- `remainingDaysInYear` counts exactly the calendar days from the given
date (exclusive) through December 31 of its year (inclusive): stepping the
calendar that many times starting at the date lands on December 31. -/
theorem iterate_nextDay_remaining (d : Date) (h : ValidDate d) :
    nextDay^[remainingDaysInYear d] d = ⟨d.year, 12, 31⟩ := by
  suffices H : ∀ n d, ValidDate d → remainingDaysInYear d = n →
      nextDay^[n] d = ⟨d.year, 12, 31⟩ from H _ d h rfl
  intro n
  induction n with
  | zero =>
    intro d hv hn
    by_cases hend : d.month = 12 ∧ d.day = 31
    · obtain ⟨y, m, day⟩ := d
      simp only at hend
      simp [hend.1, hend.2]
    · exfalso
      have := toOrdinal_lt_end d hv hend
      unfold remainingDaysInYear at hn
      omega
  | succ n ih =>
    intro d hv hn
    have hend : ¬(d.month = 12 ∧ d.day = 31) := by
      intro hc
      obtain ⟨y, m, day⟩ := d
      simp only at hc
      obtain ⟨hc1, hc2⟩ := hc
      subst hc1
      subst hc2
      simp [remainingDaysInYear] at hn
    obtain ⟨hord, hval⟩ := toOrdinal_nextDay d hv
    have hyear := nextDay_year d hv hend
    have hrem : remainingDaysInYear (nextDay d) = n := by
      unfold remainingDaysInYear at hn ⊢
      rw [hyear, hord]
      have hlt := toOrdinal_lt_end d hv hend
      omega
    rw [Function.iterate_succ_apply]
    rw [ih (nextDay d) hval hrem, hyear]

theorem mkValidDate_valid (y m d : ℕ) (dt : Date) (h : mkValidDate y m d = some dt) :
    ValidDate dt := by
  unfold mkValidDate at h
  split at h
  · injection h with h'
    subst h'
    assumption
  · simp at h

theorem pyParseDate_valid (cs : List Char) (dt : Date) (h : pyParseDate cs = some dt) :
    ValidDate dt := by
  unfold pyParseDate at h
  split at h
  · split at h
    · exact mkValidDate_valid _ _ _ _ h
    · simp at h
  · simp at h

theorem aggregate_usage_general (uid a b : ℤ) (l : List UsageEvent) :
    ∀ q0 c0, l.foldl
      (fun acc ev =>
        if inWindow uid a b ev then (acc.1 + ev.quantity, fadd acc.2 ev.cost) else acc)
      (q0, c0) =
      (q0 + ((l.filter (inWindow uid a b)).map (fun ev => ev.quantity)).sum,
       fadd c0 (sumF ((l.filter (inWindow uid a b)).map (fun ev => ev.cost)))) := by
  induction l with
  | nil => intro q0 c0; simp [sumF, fadd_zero]
  | cons ev l ih =>
    intro q0 c0
    by_cases hw : inWindow uid a b ev = true
    · simp only [List.foldl_cons, hw, if_true, List.filter_cons_of_pos, List.map_cons,
        List.sum_cons, sumF, ih]
      rw [add_assoc, fadd_assoc]
    · simp only [List.foldl_cons, hw, if_false, Bool.false_eq_true, List.filter_cons_of_neg,
        ih, not_false_iff]

/-- `_aggregate_usage` computes exactly the quantity-sum and cost-sum of
the rows passing the window filter. -/
theorem aggregate_usage_spec (usage : List UsageEvent) (uid a b : ℤ) :
    aggregate_usage usage uid a b =
      (((usage.filter (inWindow uid a b)).map (fun ev => ev.quantity)).sum,
       sumF ((usage.filter (inWindow uid a b)).map (fun ev => ev.cost))) := by
  unfold aggregate_usage
  rw [aggregate_usage_general]
  rw [zero_add, zero_fadd]

/-! ### Frame lemmas for the dashboard refresh -/

theorem mapProfileAt_usage (s : BotState) (uid : ℤ) (f : Profile → Profile) :
    (mapProfileAt s uid f).usage = s.usage := rfl

theorem mapProfileAt_core (s : BotState) (uid : ℤ) (f : Profile → Profile)
    (hf : ∀ p, coreOf (f p) = coreOf p) (u : ℤ) :
    ((mapProfileAt s uid f).users u).map coreOf = (s.users u).map coreOf := by
  unfold mapProfileAt
  simp only
  by_cases he : u = uid
  · subst he
    rw [if_pos rfl]
    cases s.users u <;> simp [hf]
  · rw [if_neg he]

theorem update_dashboard_usage (s : BotState) (uid : ℤ) (b eo : Bool) (mid : ℤ) :
    (update_dashboard s uid b eo mid).1.usage = s.usage := by
  unfold update_dashboard
  cases h : s.users uid
  · rfl
  · simp only
    split_ifs <;> rfl

theorem update_dashboard_core (s : BotState) (uid : ℤ) (b eo : Bool) (mid : ℤ) (u : ℤ) :
    ((update_dashboard s uid b eo mid).1.users u).map coreOf = (s.users u).map coreOf := by
  unfold update_dashboard
  cases h : s.users uid
  · rfl
  · simp only
    split_ifs <;>
      first
        | rfl
        | (exact mapProfileAt_core s uid
            (fun p => { p with dashboard_message_id := some mid }) (fun p => rfl) u)

theorem update_dashboard_flagP (s : BotState) (uid : ℤ) (b eo : Bool) (mid : ℤ) :
    (update_dashboard s uid b eo mid).1.awaitingNewPrice = s.awaitingNewPrice := by
  unfold update_dashboard
  cases h : s.users uid
  · rfl
  · simp only
    split_ifs <;> rfl

theorem update_dashboard_flagM (s : BotState) (uid : ℤ) (b eo : Bool) (mid : ℤ) :
    (update_dashboard s uid b eo mid).1.awaitingSmokedMore = s.awaitingSmokedMore := by
  unfold update_dashboard
  cases h : s.users uid
  · rfl
  · simp only
    split_ifs <;> rfl

/-! ### The claims -/

/-- C9: a button press from a user with no `users` row changes nothing and
sends nothing: `menu_callback` returns before creating a profile, writing
stock, appending usage, setting a pending flag or rendering a dashboard. -/
theorem C9_menu_callback_no_profile (s : BotState) (uid : ℤ) (choice : List Char)
    (now : DateTime) (editOk : Bool) (newMsgId : ℤ) (h : s.users uid = none) :
    menu_callback s uid choice now editOk newMsgId = (s, []) := by
  unfold menu_callback get_user
  rw [h]

theorem C9_menu_callback_no_profile_witness :
    emptyState.users 7 = none ∧
    menu_callback emptyState 7 "SMOKE_ONE".data sampleNow true 5 = (emptyState, []) :=
  ⟨rfl, C9_menu_callback_no_profile emptyState 7 "SMOKE_ONE".data sampleNow true 5 rfl⟩

/-- C10: `/cancel` clears exactly the two pending-input flags of the
calling user; the `users` and `usage` tables and other users' flags are
untouched.  In particular a profile created by a valid price answer
persists (price kept, stock 0, no start date) when cancel arrives before
the start-date step. -/
theorem C10_cancel_spec (s : BotState) (uid : ℤ) :
    (cancel s uid).1.users = s.users ∧
    (cancel s uid).1.usage = s.usage ∧
    (cancel s uid).1.awaitingNewPrice uid = false ∧
    (cancel s uid).1.awaitingSmokedMore uid = false ∧
    (∀ u, u ≠ uid → (cancel s uid).1.awaitingNewPrice u = s.awaitingNewPrice u ∧
      (cancel s uid).1.awaitingSmokedMore u = s.awaitingSmokedMore u) ∧
    (cancel s uid).2 = CONV_END ∧
    (∀ raw v, s.users uid = none → pyParseFloat (stripChars raw.data) = some v →
      fle v (.fin 0) = false →
      (cancel (ask_unit_price s uid raw).1 uid).1.users uid = some ⟨v, 0, none, none⟩ ∧
      (cancel (ask_unit_price s uid raw).1 uid).1.usage = s.usage) := by
  refine ⟨rfl, rfl, by simp [cancel, setPriceFlag, setMoreFlag],
    by simp [cancel, setPriceFlag, setMoreFlag], ?_, rfl, ?_⟩
  · intro u hu
    constructor <;> simp [cancel, setPriceFlag, setMoreFlag, hu]
  · intro raw v hnone hp hf
    simp only [ask_unit_price]
    rw [hp]
    simp only [hf, Bool.false_eq_true, if_false]
    constructor
    · simp [cancel, setPriceFlag, setMoreFlag, create_user]
    · rfl

/-! ### Start-date validity helpers -/

theorem StartDatesValid_users_eq (s t : BotState) (he : t.users = s.users)
    (h : StartDatesValid s) : StartDatesValid t := by
  intro u p str hu hs
  rw [he] at hu
  exact h u p str hu hs

theorem StartDatesValid_mapProfileAt (s : BotState) (uid : ℤ) (f : Profile → Profile)
    (hf : ∀ p, (f p).start_smoking_date = p.start_smoking_date)
    (h : StartDatesValid s) : StartDatesValid (mapProfileAt s uid f) := by
  intro u p str hu hs
  unfold mapProfileAt at hu
  simp only at hu
  by_cases he : u = uid
  · subst he
    rw [if_pos rfl] at hu
    cases hq : s.users u with
    | none => rw [hq] at hu; simp at hu
    | some q =>
      rw [hq] at hu
      simp at hu
      subst hu
      exact h u q str hq (by rw [← hs, hf])
  · rw [if_neg he] at hu
    exact h u p str hu hs

theorem StartDatesValid_update_dashboard (s : BotState) (uid : ℤ) (b eo : Bool) (mid : ℤ)
    (h : StartDatesValid s) : StartDatesValid (update_dashboard s uid b eo mid).1 := by
  unfold update_dashboard
  cases hq : s.users uid
  · exact h
  · simp only
    split_ifs <;>
      first
        | exact h
        | exact StartDatesValid_mapProfileAt s uid
            (fun p => { p with dashboard_message_id := some mid }) (fun p => rfl) h

theorem StartDatesValid_create_user (s : BotState) (uid : ℤ) (price : FVal)
    (h : StartDatesValid s) : StartDatesValid (create_user s uid price) := by
  intro u p str hu hs
  unfold create_user at hu
  simp only at hu
  by_cases he : u = uid
  · subst he
    rw [if_pos rfl] at hu
    injection hu with hu
    subst hu
    simp at hs
  · rw [if_neg he] at hu
    exact h u p str hu hs

theorem StartDatesValid_set_valid (s : BotState) (uid : ℤ) (d : Date) (hd : ValidDate d)
    (h : StartDatesValid s) : StartDatesValid (update_user_start_date s uid (isoOfDate d)) := by
  intro u p str hu hs
  unfold update_user_start_date mapProfileAt at hu
  simp only at hu
  by_cases he : u = uid
  · subst he
    rw [if_pos rfl] at hu
    cases hq : s.users u with
    | none => rw [hq] at hu; simp at hu
    | some q =>
      rw [hq] at hu
      simp at hu
      subst hu
      simp only at hs
      injection hs with hs
      exact ⟨d, hd, hs.symm⟩
  · rw [if_neg he] at hu
    exact h u p str hu hs

theorem not_fle_zero_pos (v : FVal) (h : fle v (.fin 0) = false) (hn : v ≠ .nan) :
    flt (.fin 0) v = true := by
  cases v with
  | fin q =>
    simp only [fle, decide_eq_false_iff_not, not_le] at h
    simp only [flt]
    exact decide_eq_true h
  | nan => exact absurd rfl hn
  | inf => rfl
  | ninf => simp [fle] at h

/-- C7 counterexample: at the price step the input `"nan"` parses as a
float, the guard `price <= 0` is `False` for NaN, so a profile IS created
(the conversation moves to the start-date step) with `unit_price = NaN`,
which is not a positive value — contradicting both the "non-numeric or
≤ 0 re-prompts" dichotomy and `unit_price > 0` at creation. -/
theorem C7_counterexample_nan_profile :
    (ask_unit_price emptyState 7 "nan").1.users 7 = some ⟨.nan, 0, none, none⟩ ∧
    (ask_unit_price emptyState 7 "nan").2.1 = ASKING_START_DATE ∧
    flt (.fin 0) FVal.nan = false ∧ fle FVal.nan (.fin 0) = false := by
  decide

/-- C7 (amended): input failing to parse as a float, or parsing to a value
with `value <= 0` true, re-prompts and creates no profile; any other
successfully parsed value (including NaN, for which the `<= 0` guard is
vacuously false) creates the profile with exactly that value and stock 0
and moves to the start-date step; `unit_price > 0` at creation holds
whenever the created value is not NaN. -/
theorem C7_ask_unit_price_spec (s : BotState) (uid : ℤ) (raw : String) :
    (pyParseFloat (stripChars raw.data) = none →
      ask_unit_price s uid raw = (s, ASKING_UNIT_PRICE, [.sentText])) ∧
    (∀ v, pyParseFloat (stripChars raw.data) = some v → fle v (.fin 0) = true →
      ask_unit_price s uid raw = (s, ASKING_UNIT_PRICE, [.sentText])) ∧
    (∀ v, pyParseFloat (stripChars raw.data) = some v → fle v (.fin 0) = false →
      (ask_unit_price s uid raw).1.users uid = some ⟨v, 0, none, none⟩ ∧
      (ask_unit_price s uid raw).2.1 = ASKING_START_DATE ∧
      (v ≠ .nan → flt (.fin 0) v = true) ∧
      (∀ u, u ≠ uid → (ask_unit_price s uid raw).1.users u = s.users u) ∧
      (ask_unit_price s uid raw).1.usage = s.usage) := by
  refine ⟨?_, ?_, ?_⟩
  · intro hp
    simp only [ask_unit_price]
    rw [hp]
  · intro v hp hf
    simp only [ask_unit_price]
    rw [hp]
    simp [hf]
  · intro v hp hf
    simp only [ask_unit_price]
    rw [hp]
    simp only [hf, Bool.false_eq_true, if_false]
    refine ⟨by simp [create_user], by trivial, fun hn => not_fle_zero_pos v hf hn, ?_, by trivial⟩
    intro u hu
    simp [create_user, hu]

theorem C7_ask_unit_price_spec_witness :
    pyParseFloat (stripChars "1.5".data) = some (.fin (3/2)) ∧
    fle (.fin (3/2)) (.fin 0) = false ∧
    (ask_unit_price emptyState 7 "1.5").1.users 7 = some ⟨.fin (3/2), 0, none, none⟩ ∧
    (ask_unit_price emptyState 7 "1.5").2.1 = ASKING_START_DATE := by
  have hp : pyParseFloat (stripChars "1.5".data) = some (.fin (3/2)) := by
    with_unfolding_all rfl
  have hf : fle (.fin (3/2)) (.fin 0) = false := by with_unfolding_all rfl
  have h := (C7_ask_unit_price_spec emptyState 7 "1.5").2.2 (.fin (3/2)) hp hf
  exact ⟨hp, hf, h.1, h.2.1⟩

/-- C8 counterexample: on 2026-10-12 (or any day) the onboarding
start-date step accepts the future date `"2099-01-01"` and stores it
verbatim: no future-date rejection exists in `ask_start_date`. -/
theorem C8_counterexample_future_start_date :
    ((ask_start_date sampleState 7 "2099-01-01" true 5).1.users 7).map
        (fun p => p.start_smoking_date) = some (some "2099-01-01".data) ∧
    pyParseDate "2099-01-01".data = some ⟨2099, 1, 1⟩ ∧
    ValidDate ⟨2026, 10, 12⟩ ∧
    dateLt ⟨2026, 10, 12⟩ ⟨2099, 1, 1⟩ = true := by
  decide

/-- C8 (amended): every stored `start_smoking_date` is the ISO form of a
valid calendar date — but not necessarily in the past: the future-date
part of the claim fails (see the counterexample).  Validity is an
invariant of every handler. -/
theorem C8_start_dates_valid_invariant (s : BotState) (h : StartDatesValid s) :
    (∀ uid choice now eo mid, StartDatesValid (menu_callback s uid choice now eo mid).1) ∧
    (∀ uid raw now eo mid, StartDatesValid (handle_text_message s uid raw now eo mid).1) ∧
    (∀ uid raw, StartDatesValid (ask_unit_price s uid raw).1) ∧
    (∀ uid raw eo mid, StartDatesValid (ask_start_date s uid raw eo mid).1) ∧
    (∀ uid, StartDatesValid (cancel s uid).1) := by
  refine ⟨?_, ?_, ?_, ?_, ?_⟩
  · intro uid choice now eo mid
    unfold menu_callback get_user
    cases hq : s.users uid with
    | none => exact h
    | some p =>
      simp only
      split_ifs
      · exact StartDatesValid_update_dashboard _ _ _ _ _
          (StartDatesValid_mapProfileAt s uid (fun q => { q with stock := p.stock + 20 })
            (fun q => rfl) h)
      · exact StartDatesValid_update_dashboard _ _ _ _ _
          (StartDatesValid_mapProfileAt s uid (fun q => { q with stock := p.stock + 1 })
            (fun q => rfl) h)
      · refine StartDatesValid_update_dashboard _ _ _ _ _ ?_
        refine StartDatesValid_users_eq (update_user_stock s uid (p.stock - 1)) _ rfl ?_
        exact StartDatesValid_mapProfileAt s uid (fun q => { q with stock := p.stock - 1 })
          (fun q => rfl) h
      · exact StartDatesValid_update_dashboard _ _ _ _ _ h
      · exact StartDatesValid_users_eq s _ rfl h
      · exact StartDatesValid_users_eq s _ rfl h
      · exact StartDatesValid_update_dashboard _ _ _ _ _ h
  · intro uid raw now eo mid
    simp only [handle_text_message]
    split_ifs
    · refine StartDatesValid_update_dashboard _ _ _ _ _ ?_
      cases hp : pyParseFloat (normText raw) with
      | none => exact StartDatesValid_users_eq s _ rfl h
      | some v =>
        simp only
        split_ifs
        · refine StartDatesValid_users_eq (update_user_price s uid v) _ rfl ?_
          exact StartDatesValid_mapProfileAt s uid (fun q => { q with unit_price := v })
            (fun q => rfl) h
        · exact StartDatesValid_users_eq s _ rfl h
    · unfold get_user
      cases hq : s.users uid with
      | none => exact h
      | some p =>
        simp only
        refine StartDatesValid_update_dashboard _ _ _ _ _ ?_
        cases hp : pyParseInt (normText raw) with
        | none => exact StartDatesValid_users_eq s _ rfl h
        | some q =>
          simp only
          split_ifs
          · refine StartDatesValid_users_eq (update_user_stock s uid (p.stock - q)) _ rfl ?_
            exact StartDatesValid_mapProfileAt s uid (fun r => { r with stock := p.stock - q })
              (fun r => rfl) h
          · exact StartDatesValid_users_eq s _ rfl h
    · exact h
  · intro uid raw
    simp only [ask_unit_price]
    cases hp : pyParseFloat (stripChars raw.data) with
    | none => exact h
    | some v =>
      simp only
      split_ifs
      · exact h
      · exact StartDatesValid_create_user s uid v h
  · intro uid raw eo mid
    simp only [ask_start_date]
    split_ifs
    · exact StartDatesValid_update_dashboard _ _ _ _ _ h
    · cases hp : pyParseDate (normText raw) with
      | none => exact h
      | some dt =>
        simp only
        refine StartDatesValid_update_dashboard _ _ _ _ _ ?_
        exact StartDatesValid_set_valid s uid dt (pyParseDate_valid _ _ hp) h
  · intro uid
    exact StartDatesValid_users_eq s _ rfl h

theorem C8_start_dates_valid_invariant_witness :
    StartDatesValid sampleState ∧
    StartDatesValid (ask_start_date sampleState 7 "2099-01-01" true 5).1 := by
  have hs : StartDatesValid sampleState := by
    intro u p str hu hst
    unfold sampleState at hu
    simp only at hu
    by_cases he : u = 7
    · rw [if_pos he] at hu
      injection hu with hu
      subst hu
      simp at hst
    · rw [if_neg he] at hu
      simp at hu
  exact ⟨hs, (C8_start_dates_valid_invariant sampleState hs).2.2.2.1 7 "2099-01-01" true 5⟩

/-! ### Stock non-negativity helpers -/

theorem StockNonneg_users_eq (s t : BotState) (he : t.users = s.users)
    (h : StockNonneg s) : StockNonneg t := by
  intro u p hu
  rw [he] at hu
  exact h u p hu

theorem StockNonneg_mapProfileAt (s : BotState) (uid : ℤ) (f : Profile → Profile)
    (h : StockNonneg s) (hf : ∀ p, s.users uid = some p → 0 ≤ (f p).stock) :
    StockNonneg (mapProfileAt s uid f) := by
  intro u p hu
  unfold mapProfileAt at hu
  simp only at hu
  by_cases he : u = uid
  · subst he
    rw [if_pos rfl] at hu
    cases hq : s.users u with
    | none => rw [hq] at hu; simp at hu
    | some q =>
      rw [hq] at hu
      simp at hu
      subst hu
      exact hf q hq
  · rw [if_neg he] at hu
    exact h u p hu

theorem StockNonneg_update_dashboard (s : BotState) (uid : ℤ) (b eo : Bool) (mid : ℤ)
    (h : StockNonneg s) : StockNonneg (update_dashboard s uid b eo mid).1 := by
  unfold update_dashboard
  cases hq : s.users uid
  · exact h
  · simp only
    split_ifs <;>
      first
        | exact h
        | exact StockNonneg_mapProfileAt s uid
            (fun p => { p with dashboard_message_id := some mid }) h
            (fun p hp => h uid p hp)

theorem StockNonneg_create_user (s : BotState) (uid : ℤ) (price : FVal)
    (h : StockNonneg s) : StockNonneg (create_user s uid price) := by
  intro u p hu
  unfold create_user at hu
  simp only at hu
  by_cases he : u = uid
  · subst he
    rw [if_pos rfl] at hu
    injection hu with hu
    subst hu
    exact le_refl 0
  · rw [if_neg he] at hu
    exact h u p hu

/-- C6: every operation preserves `stock >= 0`: additions only increase
it, `SMOKE_ONE` decrements only under `stock > 0`, the consume-more
follow-up decrements only under `0 < qty <= stock`, price changes,
onboarding and cancel never write a negative stock. -/
theorem C6_stock_nonneg_invariant (s : BotState) (h : StockNonneg s) :
    (∀ uid choice now eo mid, StockNonneg (menu_callback s uid choice now eo mid).1) ∧
    (∀ uid raw now eo mid, StockNonneg (handle_text_message s uid raw now eo mid).1) ∧
    (∀ uid raw, StockNonneg (ask_unit_price s uid raw).1) ∧
    (∀ uid raw eo mid, StockNonneg (ask_start_date s uid raw eo mid).1) ∧
    (∀ uid, StockNonneg (cancel s uid).1) := by
  refine ⟨?_, ?_, ?_, ?_, ?_⟩
  · intro uid choice now eo mid
    unfold menu_callback get_user
    cases hq : s.users uid with
    | none => exact h
    | some p =>
      have hp0 : 0 ≤ p.stock := h uid p hq
      simp only
      split_ifs with h1 h2 h3 h4 h5 h6
      · exact StockNonneg_update_dashboard _ _ _ _ _
          (StockNonneg_mapProfileAt s uid (fun q => { q with stock := p.stock + 20 }) h
            (fun q hq2 => by simp; omega))
      · exact StockNonneg_update_dashboard _ _ _ _ _
          (StockNonneg_mapProfileAt s uid (fun q => { q with stock := p.stock + 1 }) h
            (fun q hq2 => by simp; omega))
      · refine StockNonneg_update_dashboard _ _ _ _ _ ?_
        refine StockNonneg_users_eq (update_user_stock s uid (p.stock - 1)) _ rfl ?_
        exact StockNonneg_mapProfileAt s uid (fun q => { q with stock := p.stock - 1 }) h
          (fun q hq2 => by simp; omega)
      · exact StockNonneg_update_dashboard _ _ _ _ _ h
      · exact StockNonneg_users_eq s _ rfl h
      · exact StockNonneg_users_eq s _ rfl h
      · exact StockNonneg_update_dashboard _ _ _ _ _ h
  · intro uid raw now eo mid
    simp only [handle_text_message]
    split_ifs with h1 h2
    · refine StockNonneg_update_dashboard _ _ _ _ _ ?_
      cases hp : pyParseFloat (normText raw) with
      | none => exact StockNonneg_users_eq s _ rfl h
      | some v =>
        simp only
        split_ifs
        · refine StockNonneg_users_eq (update_user_price s uid v) _ rfl ?_
          exact StockNonneg_mapProfileAt s uid (fun q => { q with unit_price := v }) h
            (fun q hq2 => by simpa using h uid q hq2)
        · exact StockNonneg_users_eq s _ rfl h
    · unfold get_user
      cases hq : s.users uid with
      | none => exact h
      | some p =>
        simp only
        refine StockNonneg_update_dashboard _ _ _ _ _ ?_
        cases hp : pyParseInt (normText raw) with
        | none => exact StockNonneg_users_eq s _ rfl h
        | some q =>
          simp only
          split_ifs with hcond
          · refine StockNonneg_users_eq (update_user_stock s uid (p.stock - q)) _ rfl ?_
            exact StockNonneg_mapProfileAt s uid (fun r => { r with stock := p.stock - q }) h
              (fun r hr => by simp; omega)
          · exact StockNonneg_users_eq s _ rfl h
    · exact h
  · intro uid raw
    simp only [ask_unit_price]
    cases hp : pyParseFloat (stripChars raw.data) with
    | none => exact h
    | some v =>
      simp only
      split_ifs
      · exact h
      · exact StockNonneg_create_user s uid v h
  · intro uid raw eo mid
    simp only [ask_start_date]
    split_ifs
    · exact StockNonneg_update_dashboard _ _ _ _ _ h
    · cases hp : pyParseDate (normText raw) with
      | none => exact h
      | some dt =>
        simp only
        refine StockNonneg_update_dashboard _ _ _ _ _ ?_
        exact StockNonneg_mapProfileAt s uid
          (fun q => { q with start_smoking_date := some (isoOfDate dt) }) h
          (fun q hq2 => by simpa using h uid q hq2)
  · intro uid
    exact StockNonneg_users_eq s _ rfl h

theorem C6_stock_nonneg_invariant_witness :
    StockNonneg sampleMoreState ∧
    StockNonneg (handle_text_message sampleMoreState 7 "3" sampleNow true 9).1 := by
  have hs : StockNonneg sampleMoreState := by
    intro u p hu
    unfold sampleMoreState at hu
    simp only at hu
    by_cases he : u = 7
    · rw [if_pos he] at hu
      injection hu with hu
      subst hu
      norm_num
    · rw [if_neg he] at hu
      simp at hu
  exact ⟨hs, (C6_stock_nonneg_invariant sampleMoreState hs).2.1 7 "3" sampleNow true 9⟩

/-- C1: a consume-more follow-up with `1 <= q <= stock` decreases the
stored stock by exactly `q` (price and start date unchanged) and appends
exactly one usage row, timestamped now, with `cost = q * unit_price` at
the profile's current unit price; no other rows are added. -/
theorem C1_consume_more_valid (s : BotState) (uid : ℤ) (raw : String) (now : DateTime)
    (eo : Bool) (mid : ℤ) (p : Profile) (q : ℤ)
    (hP : s.awaitingNewPrice uid = false)
    (hM : s.awaitingSmokedMore uid = true)
    (hu : s.users uid = some p)
    (hq : pyParseInt (normText raw) = some q)
    (h1 : 1 ≤ q) (h2 : q ≤ p.stock) :
    ((handle_text_message s uid raw now eo mid).1.users uid).map coreOf =
      some (p.unit_price, p.stock - q, p.start_smoking_date) ∧
    (handle_text_message s uid raw now eo mid).1.usage =
      s.usage ++ [⟨uid, now, q, fmul (.fin q) p.unit_price⟩] := by
  have hcond : 0 < q ∧ q ≤ p.stock := ⟨by omega, h2⟩
  simp only [handle_text_message, hP, hM, Bool.false_eq_true, if_false, if_true, get_user]
  rw [hu]
  simp only
  rw [hq]
  simp only [hcond, and_self, if_true]
  constructor
  · rw [update_dashboard_core]
    simp [setMoreFlag, log_smoke_event, update_user_stock, mapProfileAt, hu, coreOf]
  · rw [update_dashboard_usage]
    simp [setMoreFlag, log_smoke_event, update_user_stock, mapProfileAt, fmul_comm]

theorem C1_consume_more_valid_witness :
    sampleMoreState.users 7 = some ⟨.fin 1, 5, some 3, none⟩ ∧
    pyParseInt (normText "3") = some 3 ∧
    ((handle_text_message sampleMoreState 7 "3" sampleNow true 9).1.users 7).map coreOf =
      some (FVal.fin 1, 2, none) ∧
    (handle_text_message sampleMoreState 7 "3" sampleNow true 9).1.usage =
      [⟨7, sampleNow, 3, fmul (.fin 3) (.fin 1)⟩] := by
  have h := C1_consume_more_valid sampleMoreState 7 "3" sampleNow true 9
    ⟨.fin 1, 5, some 3, none⟩ 3 rfl rfl rfl (by decide) (by decide) (by decide)
  refine ⟨rfl, by decide, ?_, ?_⟩
  · rw [h.1]
    norm_num
  · rw [h.2]
    rfl

/-- C5: a consume-more follow-up whose text does not parse as an integer,
or parses to `q <= 0`, or to `q > stock`, writes neither stock nor usage
(only the pending flag and possibly the dashboard message id change); and
`SMOKE_ONE` with `stock == 0` records no event and leaves stock at 0. -/
theorem C5_invalid_attempts_frame (s : BotState) (uid : ℤ) (now : DateTime)
    (eo : Bool) (mid : ℤ) :
    (∀ raw, s.awaitingNewPrice uid = false → s.awaitingSmokedMore uid = true →
      (pyParseInt (normText raw) = none ∨
        ∃ q, pyParseInt (normText raw) = some q ∧
          (q ≤ 0 ∨ ∀ p, s.users uid = some p → p.stock < q)) →
      (∀ u, ((handle_text_message s uid raw now eo mid).1.users u).map coreOf =
        (s.users u).map coreOf) ∧
      (handle_text_message s uid raw now eo mid).1.usage = s.usage) ∧
    (∀ p, s.users uid = some p → p.stock = 0 →
      (∀ u, ((menu_callback s uid "SMOKE_ONE".data now eo mid).1.users u).map coreOf =
        (s.users u).map coreOf) ∧
      (menu_callback s uid "SMOKE_ONE".data now eo mid).1.usage = s.usage) := by
  constructor
  · intro raw hP hM hbad
    simp only [handle_text_message, hP, hM, Bool.false_eq_true, if_false, if_true, get_user]
    cases hu : s.users uid with
    | none => exact ⟨fun u => rfl, rfl⟩
    | some p =>
      simp only
      cases hq : pyParseInt (normText raw) with
      | none =>
        simp only
        exact ⟨fun u => update_dashboard_core _ _ _ _ _ u, update_dashboard_usage _ _ _ _ _⟩
      | some q =>
        have hfalse : ¬(0 < q ∧ q ≤ p.stock) := by
          rcases hbad with hb | ⟨q', hq', hb⟩
          · rw [hq] at hb
            cases hb
          · rw [hq] at hq'
            injection hq' with he
            subst he
            rcases hb with hb | hb
            · intro hc
              omega
            · intro hc
              have := hb p hu
              omega
        simp only
        rw [if_neg hfalse]
        exact ⟨fun u => update_dashboard_core _ _ _ _ _ u, update_dashboard_usage _ _ _ _ _⟩
  · intro p hu h0
    unfold menu_callback get_user
    rw [hu]
    simp only
    split_ifs <;>
      first
        | (exact ⟨fun u => update_dashboard_core _ _ _ _ _ u, update_dashboard_usage _ _ _ _ _⟩)
        | (exfalso; omega)
        | (exfalso; simp_all)

theorem C5_invalid_attempts_frame_witness :
    sampleMoreState.awaitingSmokedMore 7 = true ∧
    pyParseInt (normText "9") = some 9 ∧
    ((handle_text_message sampleMoreState 7 "9" sampleNow true 9).1.users 7).map coreOf =
      some (FVal.fin 1, 5, none) ∧
    (handle_text_message sampleMoreState 7 "9" sampleNow true 9).1.usage = [] := by
  have hb : pyParseInt (normText "9") = some 9 ∨
      ∃ q, pyParseInt (normText "9") = some q ∧
        (q ≤ 0 ∨ ∀ p, sampleMoreState.users 7 = some p → p.stock < q) := by
    refine Or.inr ⟨9, by decide, Or.inr ?_⟩
    intro p hp
    have hpe : p = ⟨.fin 1, 5, some 3, none⟩ := by
      have h2 := hp
      simp [sampleMoreState] at h2
      exact h2.symm
    rw [hpe]
    decide
  have h := (C5_invalid_attempts_frame sampleMoreState 7 sampleNow true 9).1 "9" rfl rfl
    (Or.inr (by
      rcases hb with hb | hb
      · exact ⟨9, by decide, Or.inr (fun p hp => by
          have h2 := hp
          simp [sampleMoreState] at h2
          rw [← h2]
          decide)⟩
      · exact hb))
  refine ⟨rfl, by decide, ?_, ?_⟩
  · rw [h.1 7]
    rfl
  · rw [h.2]
    rfl

/-- C4: `get_aggregates` returns, for each of the four windows
`[window start, now]`, exactly the sum of quantities and the float sum of
costs of this user's usage rows inside the window (computed as a pure
read: its inputs are the table and the clock, and it returns only the
sums).  Window bounds are inclusive: a row timestamped exactly at a
window start is counted; with no rows at all every window is `(0, 0.0)`. -/
theorem C4_get_aggregates_spec (usage : List UsageEvent) (uid : ℤ) (now : DateTime) :
    (get_aggregates usage uid now).daily =
      (((usage.filter (inWindow uid (dailyStartTs now) (tsVal now))).map
          (fun ev => ev.quantity)).sum,
        sumF ((usage.filter (inWindow uid (dailyStartTs now) (tsVal now))).map
          (fun ev => ev.cost))) ∧
    (get_aggregates usage uid now).weekly =
      (((usage.filter (inWindow uid (weeklyStartTs now) (tsVal now))).map
          (fun ev => ev.quantity)).sum,
        sumF ((usage.filter (inWindow uid (weeklyStartTs now) (tsVal now))).map
          (fun ev => ev.cost))) ∧
    (get_aggregates usage uid now).monthly =
      (((usage.filter (inWindow uid (monthlyStartTs now) (tsVal now))).map
          (fun ev => ev.quantity)).sum,
        sumF ((usage.filter (inWindow uid (monthlyStartTs now) (tsVal now))).map
          (fun ev => ev.cost))) ∧
    (get_aggregates usage uid now).yearly =
      (((usage.filter (inWindow uid (yearlyStartTs now) (tsVal now))).map
          (fun ev => ev.quantity)).sum,
        sumF ((usage.filter (inWindow uid (yearlyStartTs now) (tsVal now))).map
          (fun ev => ev.cost))) ∧
    (∀ a b : ℤ, ∀ ev : UsageEvent, ev.user_id = uid → tsVal ev.timestamp = a → a ≤ b →
      inWindow uid a b ev = true) ∧
    get_aggregates [] uid now = ⟨(0, .fin 0), (0, .fin 0), (0, .fin 0), (0, .fin 0)⟩ := by
  refine ⟨aggregate_usage_spec usage uid _ _, aggregate_usage_spec usage uid _ _,
    aggregate_usage_spec usage uid _ _, aggregate_usage_spec usage uid _ _, ?_, rfl⟩
  intro a b ev h1 h2 h3
  unfold inWindow
  rw [h1, h2]
  simp [h3]

theorem C4_get_aggregates_spec_witness :
    inWindow 7 (dailyStartTs sampleNow) (tsVal sampleNow)
      ⟨7, ⟨⟨2026, 10, 12⟩, 0⟩, 2, .fin 2⟩ = true ∧
    get_aggregates [] 7 sampleNow = ⟨(0, .fin 0), (0, .fin 0), (0, .fin 0), (0, .fin 0)⟩ := by
  have h := C4_get_aggregates_spec [] 7 sampleNow
  exact ⟨h.2.2.2.2.1 (dailyStartTs sampleNow) (tsVal sampleNow)
    ⟨7, ⟨⟨2026, 10, 12⟩, 0⟩, 2, .fin 2⟩ rfl (by decide) (by decide), h.2.2.2.2.2⟩

/-- C2: `calculate_forecast` returns 0 when `daily_cost <= 0` (float
comparison) and otherwise `daily_cost * remaining_days`, where
`remaining_days` is the ordinal difference to December 31 — proved to be
exactly the count of calendar days from today (exclusive) through
December 31 (inclusive) by iterating the calendar successor; on
December 31 it is 0, and leap years are reflected (Feb 28 leaves 307
remaining days in 2024 but 306 in 2023). -/
theorem C2_calculate_forecast_spec (D : FVal) (today : Date) (h : ValidDate today) :
    calculate_forecast D today =
      (if fle D (.fin 0) then .fin 0 else fmul D (.fin (remainingDaysInYear today))) ∧
    (fle D (.fin 0) = true → calculate_forecast D today = .fin 0) ∧
    nextDay^[remainingDaysInYear today] today = ⟨today.year, 12, 31⟩ ∧
    remainingDaysInYear ⟨today.year, 12, 31⟩ = 0 ∧
    (∀ q : ℚ, 0 < q → calculate_forecast (.fin q) ⟨today.year, 12, 31⟩ = .fin 0) ∧
    remainingDaysInYear ⟨2024, 2, 28⟩ = 307 ∧
    remainingDaysInYear ⟨2023, 2, 28⟩ = 306 := by
  have hz : remainingDaysInYear ⟨today.year, 12, 31⟩ = 0 := by
    simp [remainingDaysInYear]
  refine ⟨rfl, ?_, iterate_nextDay_remaining today h, hz, ?_, by decide, by decide⟩
  · intro hd
    simp [calculate_forecast, hd]
  · intro q hq
    have hle : fle (.fin q) (.fin 0) = false := by
      simp only [fle, decide_eq_false_iff_not, not_le]
      exact hq
    simp [calculate_forecast, hle, hz, fmul]

theorem C2_calculate_forecast_spec_witness :
    ValidDate ⟨2026, 10, 12⟩ ∧
    nextDay^[remainingDaysInYear ⟨2026, 10, 12⟩] ⟨2026, 10, 12⟩ = ⟨2026, 12, 31⟩ ∧
    calculate_forecast (.fin 0) ⟨2026, 10, 12⟩ = .fin 0 := by
  have h := C2_calculate_forecast_spec (.fin 0) ⟨2026, 10, 12⟩ (by decide)
  exact ⟨by decide, h.2.2.1, h.2.1 (by with_unfolding_all rfl)⟩

theorem dateLe_iff_not_lt (a b : Date) : dateLe a b = true ↔ dateLt b a = false := by
  cases a with
  | mk y1 m1 d1 =>
    cases b with
    | mk y2 m2 d2 =>
      simp only [dateLe, dateLt, Bool.or_eq_true, beq_iff_eq, Date.mk.injEq,
        decide_eq_true_iff, decide_eq_false_iff_not]
      omega

/-- C3: `theoretical_spent_since_start` returns 0.0 for an absent or
unparsable start date and for a strictly-future start date (without
error); for `start_date <= today` it returns
`daily_cost * ((today - start_date).days + 1)`, so `start_date == today`
yields `daily_cost * 1 = daily_cost`. -/
theorem C3_theoretical_spent_spec (usage : List UsageEvent) (uid : ℤ) (now : DateTime) :
    theoretical_spent_since_start usage uid now none = .fin 0 ∧
    (∀ str, pyParseDate str = none →
      theoretical_spent_since_start usage uid now (some str) = .fin 0) ∧
    (∀ str start, pyParseDate str = some start → dateLe start now.date = true →
      theoretical_spent_since_start usage uid now (some str) =
        fmul (get_aggregates usage uid now).daily.2
          (.fin (((toOrdinal now.date : ℤ) - (toOrdinal start : ℤ)) + 1))) ∧
    (∀ str, pyParseDate str = some now.date →
      theoretical_spent_since_start usage uid now (some str) =
        fmul (get_aggregates usage uid now).daily.2 (.fin 1)) ∧
    fmul (get_aggregates usage uid now).daily.2 (.fin 1) =
      (get_aggregates usage uid now).daily.2 ∧
    (∀ str start, pyParseDate str = some start → dateLt now.date start = true →
      theoretical_spent_since_start usage uid now (some str) = .fin 0) := by
  have hne : ∀ str (start : Date), pyParseDate str = some start → str ≠ [] := by
    intro str start hp he
    rw [he] at hp
    have hnil : pyParseDate ([] : List Char) = none := by decide
    rw [hnil] at hp
    cases hp
  have hle_case : ∀ str start, pyParseDate str = some start → dateLt now.date start = false →
      theoretical_spent_since_start usage uid now (some str) =
        fmul (get_aggregates usage uid now).daily.2
          (.fin (((toOrdinal now.date : ℤ) - (toOrdinal start : ℤ)) + 1)) := by
    intro str start hp hlt
    simp only [theoretical_spent_since_start]
    rw [if_neg (hne str start hp), hp]
    simp [hlt]
  refine ⟨rfl, ?_, ?_, ?_, fmul_one_right _, ?_⟩
  · intro str hp
    simp only [theoretical_spent_since_start]
    split_ifs
    · rfl
    · rw [hp]
  · intro str start hp hle
    exact hle_case str start hp ((dateLe_iff_not_lt start now.date).mp hle)
  · intro str hp
    have hlt : dateLt now.date now.date = false := by
      apply (dateLe_iff_not_lt now.date now.date).mp
      simp [dateLe]
    have h := hle_case str now.date hp hlt
    rw [h]
    norm_num
  · intro str start hp hlt
    simp only [theoretical_spent_since_start]
    rw [if_neg (hne str start hp), hp]
    simp [hlt]

theorem C3_theoretical_spent_spec_witness :
    pyParseDate "2026-10-12".data = some sampleNow.date ∧
    theoretical_spent_since_start [] 7 sampleNow (some "2026-10-12".data) =
      fmul (get_aggregates [] 7 sampleNow).daily.2 (.fin 1) ∧
    dateLt sampleNow.date ⟨2099, 1, 1⟩ = true ∧
    theoretical_spent_since_start [] 7 sampleNow (some "2099-01-01".data) = .fin 0 := by
  have h := C3_theoretical_spent_spec [] 7 sampleNow
  exact ⟨by decide, h.2.2.2.1 "2026-10-12".data (by decide), by decide,
    h.2.2.2.2.2 "2099-01-01".data ⟨2099, 1, 1⟩ (by decide) (by decide)⟩

theorem C10_cancel_spec_witness :
    emptyState.users 7 = none ∧
    pyParseFloat (stripChars "1.5".data) = some (.fin (3/2)) ∧
    fle (.fin (3/2)) (.fin 0) = false ∧
    (cancel (ask_unit_price emptyState 7 "1.5").1 7).1.users 7 =
      some ⟨.fin (3/2), 0, none, none⟩ ∧
    (cancel (ask_unit_price emptyState 7 "1.5").1 7).1.usage = [] := by
  have hp : pyParseFloat (stripChars "1.5".data) = some (.fin (3/2)) := by
    with_unfolding_all rfl
  have hf : fle (.fin (3/2)) (.fin 0) = false := by with_unfolding_all rfl
  have h2 := (C10_cancel_spec emptyState 7).2.2.2.2.2.2 "1.5" (.fin (3/2)) rfl hp hf
  exact ⟨rfl, hp, hf, h2.1, h2.2⟩
